import Mathlib

/-!
Verification development for the noodles genomics codec family.

This file gives a shallow embedding of the BAM record encoders
(`noodles-bam/src/writer/record.rs` and the legacy
`noodles-bam/src/writer.rs`), the CSI binning-index query
(`noodles-csi/src/index/reference_sequence.rs`) and the async BGZF
writer shutdown path (`noodles-bgzf/src/async/writer.rs`), together
with theorems settling the specification claims about them.

Bytes are modelled as natural numbers below 256 collected in lists;
machine integers are `Int`/`Nat` with explicit `%` where wrapping
matters.  Fallible code returns `Except`.
-/

namespace Noodles

/-- Error kinds surfaced by the embedded code (`std::io::ErrorKind`). -/
inductive ErrKind where
  | invalidInput
  | invalidData
  | writeZero
  deriving DecidableEq, Repr

/-- Little-endian bytes of a `u16`; the value is truncated modulo 2^16
(as a `WriteBytesExt::write_u16` of a wrapped cast would). -/
def u16le (x : Nat) : List Nat := [x % 256, x / 256 % 256]

/-- Little-endian bytes of a `u32`, truncated modulo 2^32. -/
def u32le (x : Nat) : List Nat :=
  [x % 256, x / 2 ^ 8 % 256, x / 2 ^ 16 % 256, x / 2 ^ 24 % 256]

/-- Little-endian bytes of an `i32`, two's complement. -/
def i32le (x : Int) : List Nat := u32le (x % 2 ^ 32).toNat

/-- Little-endian bytes of an `i16`, two's complement. -/
def i16le (x : Int) : List Nat := u16le (x % 2 ^ 16).toNat

/-- The single two's-complement byte of an `i8`. -/
def i8byte (x : Int) : Nat := (x % 2 ^ 8).toNat

/-- Reinterpret a `usize` value as an `i32` (`as i32` cast semantics). -/
def i32ofNat (x : Nat) : Int :=
  if x % 2 ^ 32 < 2 ^ 31 then (x % 2 ^ 32 : Nat) else (x % 2 ^ 32 : Nat) - 2 ^ 32

/-- Arithmetic shift right of a two's-complement machine integer,
i.e. floor division by a power of two.  `Int` division in Lean is
Euclidean division, which coincides with floor division for a positive
divisor, hence with Rust's `>>` on `i32`/`i64` (absent overflow). -/
def sar (x : Int) (n : Nat) : Int := x / 2 ^ n

/-- Embedding of `region_to_bin` (`noodles-bam/src/writer/record.rs`
lines 441-457; byte-identical copy in `noodles-bam/src/writer.rs` lines
258-274).  0-based, `[start, end)`: the end is decremented first, then
the smallest containing bin is returned. -/
def region_to_bin (start : Int) (e : Int) : Int :=
  let end1 := e - 1
  if sar start 14 = sar end1 14 then ((1 <<< 15) - 1) / 7 + sar start 14
  else if sar start 17 = sar end1 17 then ((1 <<< 12) - 1) / 7 + sar start 17
  else if sar start 20 = sar end1 20 then ((1 <<< 9) - 1) / 7 + sar start 20
  else if sar start 23 = sar end1 23 then ((1 <<< 6) - 1) / 7 + sar start 23
  else if sar start 26 = sar end1 26 then ((1 <<< 3) - 1) / 7 + sar start 26
  else 0

/-- The spec's wording of the bin calculation (spec section 4.5): the
same decrement followed by literal per-level offsets 4681, 585, 73, 9,
1, else 0.  Stated separately so the source function can be compared
against it. -/
def regionToBinSpec (beg : Int) (e : Int) : Int :=
  let end1 := e - 1
  if sar beg 14 = sar end1 14 then 4681 + sar beg 14
  else if sar beg 17 = sar end1 17 then 585 + sar beg 17
  else if sar beg 20 = sar end1 20 then 73 + sar beg 20
  else if sar beg 23 = sar end1 23 then 9 + sar beg 23
  else if sar beg 26 = sar end1 26 then 1 + sar beg 26
  else 0

example : region_to_bin (-1) 0 = 4680 := by decide
example : region_to_bin 7 13 = 4681 := by decide
example : region_to_bin 63245985 63255986 = 8541 := by decide
example : (-1 : Int) / 2 = -1 := by decide
example : (-1 : Int) % 256 = 255 := by decide

/-! ## BAM record data model

The SAM record accessors (`noodles_sam::Record`) are not part of the
given sources; their fields are modelled from the spec's data model
(section 3 and section 4.6): read name bytes, optional 1-based
positions, CIGAR operations, the 16-symbol base alphabet and the
tagged auxiliary values. -/

/-- CIGAR operation kind (`sam::record::cigar::op::Kind`).  Modelled
from the spec: discriminants `M=0, I=1, D=2, N=3, S=4, H=5, P=6, Eq=7,
X=8` (spec section 4.6 step 5). -/
inductive OpKind where
  | m
  | ins
  | del
  | skip
  | softClip
  | hardClip
  | pad
  | seqMatch
  | seqMismatch
  deriving DecidableEq, Repr

/-- The `op.kind() as u32` discriminant value. -/
def OpKind.code : OpKind → Nat
  | .m => 0
  | .ins => 1
  | .del => 2
  | .skip => 3
  | .softClip => 4
  | .hardClip => 5
  | .pad => 6
  | .seqMatch => 7
  | .seqMismatch => 8

/-- Whether an operation kind consumes reference positions.  Modelled
from the spec: the bin is derived from "alignment start + reference
span (computed from the CIGAR's reference-consuming operations)"
(spec section 4.6 step 4); those are `M`, `D`, `N`, `=`, `X`. -/
def OpKind.consumesReference : OpKind → Bool
  | .m => true
  | .del => true
  | .skip => true
  | .seqMatch => true
  | .seqMismatch => true
  | _ => false

/-- A CIGAR operation: a length and a kind. -/
structure CigarOp where
  len : Nat
  kind : OpKind
  deriving DecidableEq, Repr

/-- Modelled from the spec: `Cigar::reference_len` /
`Cigar::mapped_len` (not under `src/`) sum the lengths of the
reference-consuming operations. -/
def referenceLen (cigar : List CigarOp) : Nat :=
  cigar.foldl (fun acc op => acc + (if op.kind.consumesReference then op.len else 0)) 0

/-- Encoding of one CIGAR operation and of a whole CIGAR
(`write_cigar` in both writer files): each op is the little-endian
`u32` of `len << 4 | kind`. -/
def writeCigar (cigar : List CigarOp) : List Nat :=
  cigar.flatMap fun op => u32le (op.len <<< 4 ||| op.kind.code)

/-- The 16-symbol sequence alphabet (spec section 3). -/
inductive SamBase where
  | eq
  | a
  | c
  | m
  | g
  | r
  | s
  | v
  | t
  | w
  | y
  | h
  | k
  | d
  | b
  | n
  deriving DecidableEq, Repr

/-- Nibble code of a base: the `base_to_u8` table of
`noodles-bam/src/writer.rs` lines 206-225; `bam::record::sequence::Base`
(used by `writer/record.rs`, not under `src/`) is modelled from the
spec's identical alphabet `= A C M G R S V T W Y H K D B N` with codes
0..15. -/
def baseToU8 : SamBase → Nat
  | .eq => 0
  | .a => 1
  | .c => 2
  | .m => 3
  | .g => 4
  | .r => 5
  | .s => 6
  | .v => 7
  | .t => 8
  | .w => 9
  | .y => 10
  | .h => 11
  | .k => 12
  | .d => 13
  | .b => 14
  | .n => 15

/-- Nibble packing of the sequence (`write_seq` in both writer files):
two bases per byte, high nibble first; an unpaired final base is
padded with code 0 (`=`). -/
def writeSeq : List SamBase → List Nat
  | [] => []
  | [x1] => [baseToU8 x1 <<< 4 ||| 0]
  | x1 :: x2 :: rest => (baseToU8 x1 <<< 4 ||| baseToU8 x2) :: writeSeq rest

/-- An auxiliary data value (`sam::record::data::field::Value`,
modelled from the spec's tagged-variant description, section 3 and
design notes).  Float payloads are carried as their four raw bytes;
the codec never inspects them. -/
inductive AuxValue where
  | char (c : Nat)
  | int (n : Int)
  | float (b0 b1 b2 b3 : Nat)
  | str (s : List Nat)
  | hex (s : List Nat)
  | int8Array (vs : List Int)
  | uint8Array (vs : List Nat)
  | int16Array (vs : List Int)
  | uint16Array (vs : List Nat)
  | int32Array (vs : List Int)
  | uint32Array (vs : List Nat)
  | floatArray (vs : List (Nat × Nat × Nat × Nat))
  deriving DecidableEq, Repr

/-- The `val_type` byte of a non-integer value (`value.ty()`):
`A`, `f`, `Z`, `H`, `B` per the spec's auxiliary-field table.
Integer values never reach this function in `write_data`. -/
def AuxValue.tyByte : AuxValue → Nat
  | .char _ => 65
  | .int _ => 105
  | .float _ _ _ _ => 102
  | .str _ => 90
  | .hex _ => 72
  | .int8Array _ => 66
  | .uint8Array _ => 66
  | .int16Array _ => 66
  | .uint16Array _ => 66
  | .int32Array _ => 66
  | .uint32Array _ => 66
  | .floatArray _ => 66

/-- The array subtype byte (`value.subtype()`): `c C s S i I f` for
the seven `B` array flavours, absent otherwise. -/
def AuxValue.subtypeByte : AuxValue → Option Nat
  | .int8Array _ => some 99
  | .uint8Array _ => some 67
  | .int16Array _ => some 115
  | .uint16Array _ => some 83
  | .int32Array _ => some 105
  | .uint32Array _ => some 73
  | .floatArray _ => some 102
  | _ => none

/-- One auxiliary field: a two-byte tag and a value. -/
structure DataField where
  tag : Nat × Nat
  value : AuxValue
  deriving DecidableEq, Repr

/-! ## Auxiliary data encoding (`noodles-bam/src/writer/record.rs`) -/

/-- Embedding of `write_data_int_value` (lines 399-436): choose the
narrowest of `C`/`S`/`I`/`c`/`s`/`i` for an `i64` value, emitting the
type byte (`b'C' = 67`, `b'S' = 83`, `b'I' = 73`, `b'c' = 99`,
`b's' = 115`, `b'i' = 105`, the BAM type characters from the spec's
section 4.6 table) followed by the little-endian value; out-of-range
values fail with `InvalidInput`. -/
def write_data_int_value (n : Int) : Except ErrKind (List Nat) :=
  if 0 ≤ n then
    if n ≤ 255 then .ok [67, (n % 2 ^ 8).toNat]
    else if n ≤ 65535 then .ok (83 :: u16le (n % 2 ^ 16).toNat)
    else if n ≤ 4294967295 then .ok (73 :: u32le (n % 2 ^ 32).toNat)
    else .error .invalidInput
  else if -128 ≤ n then .ok [99, i8byte n]
  else if -32768 ≤ n then .ok (115 :: i16le n)
  else if -2147483648 ≤ n then .ok (105 :: i32le n)
  else .error .invalidInput

/-- Byte count contributed by a single auxiliary field inside
`calculate_data_len` (lines 225-307): 2 tag bytes, 1 type byte, for
arrays 1 subtype byte and a 4-byte count, then the value payload; the
integer arm mirrors the width choice of `write_data_int_value`. -/
def dataFieldLen (f : DataField) : Except ErrKind Nat :=
  let base := 2 + 1 + (match f.value.subtypeByte with | some _ => 1 + 4 | none => 0)
  match f.value with
  | .char _ => .ok (base + 1)
  | .int n =>
    if 0 ≤ n then
      if n ≤ 255 then .ok (base + 1)
      else if n ≤ 65535 then .ok (base + 2)
      else if n ≤ 4294967295 then .ok (base + 4)
      else .error .invalidInput
    else if -128 ≤ n then .ok (base + 1)
    else if -32768 ≤ n then .ok (base + 2)
    else if -2147483648 ≤ n then .ok (base + 4)
    else .error .invalidInput
  | .float _ _ _ _ => .ok (base + 4)
  | .str s => .ok (base + s.length + 1)
  | .hex s => .ok (base + s.length + 1)
  | .int8Array vs => .ok (base + vs.length)
  | .uint8Array vs => .ok (base + vs.length)
  | .int16Array vs => .ok (base + 2 * vs.length)
  | .uint16Array vs => .ok (base + 2 * vs.length)
  | .int32Array vs => .ok (base + 4 * vs.length)
  | .uint32Array vs => .ok (base + 4 * vs.length)
  | .floatArray vs => .ok (base + 4 * vs.length)

/-- Embedding of `calculate_data_len` (lines 225-307): total byte
length of the auxiliary data section, failing with `InvalidInput` on
an unrepresentable integer value, first failure wins. -/
def calculate_data_len : List DataField → Except ErrKind Nat
  | [] => .ok 0
  | f :: rest => do
    let n ← dataFieldLen f
    let rest1 ← calculate_data_len rest
    .ok (n + rest1)

/-- Payload bytes of a non-integer value inside `write_data` (lines
331-393): strings are written NUL-terminated (an interior NUL makes
`CString::new` fail with `InvalidInput`), arrays are a `u32` count
followed by their little-endian elements. -/
def writeAuxBody : AuxValue → Except ErrKind (List Nat)
  | .char c => .ok [c % 256]
  | .int _ => .error .invalidInput
  | .float b0 b1 b2 b3 => .ok [b0, b1, b2, b3]
  | .str s => if 0 ∈ s then .error .invalidInput else .ok (s ++ [0])
  | .hex s => if 0 ∈ s then .error .invalidInput else .ok (s ++ [0])
  | .int8Array vs => .ok (u32le vs.length ++ vs.map i8byte)
  | .uint8Array vs => .ok (u32le vs.length ++ vs.map (· % 256))
  | .int16Array vs => .ok (u32le vs.length ++ vs.flatMap i16le)
  | .uint16Array vs => .ok (u32le vs.length ++ vs.flatMap u16le)
  | .int32Array vs => .ok (u32le vs.length ++ vs.flatMap i32le)
  | .uint32Array vs => .ok (u32le vs.length ++ vs.flatMap u32le)
  | .floatArray vs => .ok (u32le vs.length ++ vs.flatMap fun v => [v.1, v.2.1, v.2.2.1, v.2.2.2])

/-- The loop body of `write_data` (lines 315-393) for one field: the
2-byte tag, then either the integer fast path (`write_data_int_value`)
or type byte, optional subtype byte and payload. -/
def writeDataField (f : DataField) : Except ErrKind (List Nat) := do
  let tagBytes := [f.tag.1 % 256, f.tag.2 % 256]
  let body ←
    match f.value with
    | .int n => write_data_int_value n
    | v => do
      let sub := match v.subtypeByte with | some st => [st] | none => []
      let payload ← writeAuxBody v
      .ok (v.tyByte :: sub ++ payload)
  .ok (tagBytes ++ body)

/-- Embedding of `write_data` (lines 309-397): the concatenation of
the per-field encodings, first failure wins. -/
def write_data : List DataField → Except ErrKind (List Nat)
  | [] => .ok []
  | f :: rest => do
    let fb ← writeDataField f
    let restBytes ← write_data rest
    .ok (fb ++ restBytes)

/-! ## The current BAM record encoder (`noodles-bam/src/writer/record.rs`) -/

/-- A SAM record as seen by `write_sam_record`.  Modelled from the
spec (`noodles_sam::Record` is not under `src/`): byte-string names,
1-based optional positions, `u8` mapping quality, `u16` flags. -/
structure SamRecord where
  readName : Option (List Nat)
  referenceSequenceName : Option (List Nat)
  position : Option Int
  mappingQuality : Nat
  flags : Nat
  mateReferenceSequenceName : Option (List Nat)
  matePosition : Option Int
  templateLength : Int
  cigar : List CigarOp
  sequence : List SamBase
  qualityScores : List Nat
  data : List DataField
  deriving Repr

/-- The reference dictionary: reference sequence names in order
(`ReferenceSequences` is an ordered map; only name-to-index lookup is
used by the encoders). -/
def getIndexOf : List (List Nat) → List Nat → Option Nat
  | [], _ => none
  | x :: xs, nm => if x = nm then some 0 else (getIndexOf xs nm).map (· + 1)

/-- Embedding of `write_reference_sequence_id`
(`writer/record.rs` lines 144-170): a present name is looked up in the
dictionary and written as its 0-based index (`i32`), a missing entry
fails with `InvalidInput` (as does an index over `i32::MAX`), an
absent name is written as the unmapped sentinel `-1` (modelled from
the spec: `record::reference_sequence_id::UNMAPPED` is not under
`src/`; spec section 4.6 step 2 says absent names encode as -1). -/
def write_reference_sequence_id (refs : List (List Nat)) :
    Option (List Nat) → Except ErrKind (List Nat)
  | some nm =>
    match getIndexOf refs nm with
    | some i => if 2147483647 < i then .error .invalidInput else .ok (i32le i)
    | none => .error .invalidInput
  | none => .ok (i32le (-1))

/-- Embedding of `write_position` (`writer/record.rs` lines 172-183):
a 1-based position is written 0-based, a missing position as -1
(`UNMAPPED_POSITION`, modelled from the spec, section 4.6 step 3). -/
def write_position : Option Int → List Nat
  | some p => i32le (p - 1)
  | none => i32le (-1)

/-- The bin field computed by `write_sam_record` (lines 78-87):
`region_to_bin(pos - 1, (pos - 1) + reference_len(cigar)) as u16` for
a mapped record, `UNMAPPED_BIN = 4680` otherwise. -/
def samRecordBin (position : Option Int) (cigar : List CigarOp) : Nat :=
  match position with
  | some p =>
    ((region_to_bin (p - 1) ((p - 1) + (referenceLen cigar : Int))) % 2 ^ 16).toNat
  | none => 4680

/-- Embedding of `write_sam_record` (`noodles-bam/src/writer/record.rs`
lines 29-142), producing the full encoded record (including the
leading `block_size` field) or the first error. -/
def write_sam_record (refs : List (List Nat)) (r : SamRecord) :
    Except ErrKind (List Nat) := do
  let nameBytes := r.readName.getD [42]
  if 0 ∈ nameBytes then .error .invalidInput
  let readName := nameBytes ++ [0]
  if 255 < readName.length then .error .invalidInput
  let lReadName := readName.length
  if 65535 < r.cigar.length then .error .invalidInput
  let nCigarOp := r.cigar.length
  if 2 ^ 32 ≤ r.sequence.length then .error .invalidInput
  let lSeq := r.sequence.length
  let dataLen ← calculate_data_len r.data
  if 2 ^ 32 ≤ dataLen then .error .invalidInput
  let blockSize := 32 + lReadName + 4 * nCigarOp + (lSeq + 1) / 2 + lSeq + dataLen
  let refIdBytes ← write_reference_sequence_id refs r.referenceSequenceName
  let mateRefIdBytes ← write_reference_sequence_id refs r.mateReferenceSequenceName
  let seqQual ←
    if r.sequence.isEmpty then (pure [] : Except ErrKind (List Nat))
    else if r.sequence.length = r.qualityScores.length then
      .ok (writeSeq r.sequence ++ r.qualityScores.map (· % 256))
    else if r.qualityScores.isEmpty then
      .ok (writeSeq r.sequence ++ List.replicate lSeq 255)
    else .error .invalidInput
  let dataBytes ← write_data r.data
  .ok (u32le blockSize ++ refIdBytes ++ write_position r.position ++
    [lReadName % 256] ++ [r.mappingQuality % 256] ++
    u16le (samRecordBin r.position r.cigar) ++ u16le nCigarOp ++
    u16le r.flags ++ u32le lSeq ++ mateRefIdBytes ++
    write_position r.matePosition ++ i32le r.templateLength ++
    readName ++ writeCigar r.cigar ++ seqQual ++ dataBytes)

/-! ## The legacy BAM record encoder (`noodles-bam/src/writer.rs`) -/

/-- The three-valued mate reference name of the legacy
`sam::record::MateReferenceSequenceName`: a name, `=` (same as the
record's reference), or absent. -/
inductive MateRefName where
  | someName (nm : List Nat)
  | eq
  | none
  deriving DecidableEq, Repr

/-- A SAM record as seen by the legacy `Writer::write_record`.
Modelled from the spec for the accessors not under `src/`: positions
are 1-based when present and `i32::from` of an absent position is 0
(the writer subtracts 1 to produce the on-wire -1). -/
structure OldSamRecord where
  name : Option (List Nat)
  referenceSequenceName : Option (List Nat)
  position : Option Int
  mappingQuality : Nat
  flags : Nat
  mateReferenceSequenceName : MateRefName
  matePosition : Option Int
  templateLen : Int
  cigar : List CigarOp
  sequence : List SamBase
  qualityScores : List Nat
  deriving Repr

/-- The reference id lookup of `Writer::write_record`
(`writer.rs` lines 64-83): a present name resolves to its 0-based
index (`as i32` cast), an unknown name fails with `InvalidData`, an
absent name is -1. -/
def writerLookupRefId (refs : List (List Nat)) :
    Option (List Nat) → Except ErrKind Int
  | some nm =>
    match getIndexOf refs nm with
    | some i => .ok (i32ofNat i)
    | Option.none => .error .invalidData
  | Option.none => .ok (-1)

/-- The bin field computed by `Writer::write_record` (`writer.rs`
lines 118-124): for a mapped record the code passes the 1-based start
and the CIGAR `mapped_len` (a length, not an end coordinate) to
`region_to_bin`; unmapped records use 4680. -/
def writerRecordBin (position : Option Int) (cigar : List CigarOp) : Nat :=
  match position with
  | some start =>
    ((region_to_bin start (i32ofNat (referenceLen cigar))) % 2 ^ 16).toNat
  | none => 4680

/-- The value `i32::from(record.position())` of the legacy `Position`:
the inner 1-based value, or 0 when absent. -/
def oldPositionI32 : Option Int → Int
  | some p => p
  | none => 0

/-- Embedding of the legacy `Writer::write_record`
(`noodles-bam/src/writer.rs` lines 53-151), producing the bytes handed
to the BGZF writer.  Note: it never writes auxiliary data, never
pads or validates quality scores, and narrows lengths with plain `as`
casts. -/
def writer_write_record (refs : List (List Nat)) (r : OldSamRecord) :
    Except ErrKind (List Nat) := do
  let cName ←
    match r.name with
    | some nm => if 0 ∈ nm then .error .invalidData else (pure nm : Except ErrKind (List Nat))
    | none => pure []
  let refId ← writerLookupRefId refs r.referenceSequenceName
  let mateRefId ←
    match r.mateReferenceSequenceName with
    | .someName nm =>
      match getIndexOf refs nm with
      | some i => .ok (i32ofNat i)
      | none => .error .invalidData
    | .eq => pure refId
    | .none => pure (-1)
  let readName : List Nat := cName ++ [0]
  let lReadName : Nat := readName.length % 256
  let nCigarOp : Nat := r.cigar.length % 2 ^ 16
  let lSeq := i32ofNat r.sequence.length
  let blockSize : Int :=
    4 + 4 + 1 + 1 + 2 + 2 + 2 + 4 + 4 + 4 + 4 +
      (lReadName : Int) + 4 * (nCigarOp : Int) + (lSeq + 1).tdiv 2 + lSeq
  .ok (i32le blockSize ++ i32le refId ++ i32le (oldPositionI32 r.position - 1) ++
    [lReadName] ++ [r.mappingQuality % 256] ++
    u16le (writerRecordBin r.position r.cigar) ++ u16le nCigarOp ++
    u16le r.flags ++ i32le lSeq ++ i32le mateRefId ++
    i32le (oldPositionI32 r.matePosition - 1) ++ i32le r.templateLen ++
    readName ++ writeCigar r.cigar ++ writeSeq r.sequence ++
    r.qualityScores.map (· % 256))

/-! ## CSI binning index (`noodles-csi/src/index/reference_sequence.rs`) -/

/-- The query error type (`QueryError`, lines 29-34). -/
inductive QueryError where
  | invalidStartPosition (minPos start : Int)
  | invalidEndPosition (maxPos e : Int)
  deriving DecidableEq, Repr

/-- A CSI bin.  Modelled from the spec (the `Bin` type of
`reference_sequence/bin.rs` is not under `src/`): a bin id, the
`loffset` virtual position, and chunks of virtual-position pairs
(spec section 3); only the id is consulted by `query`. -/
structure CsiBin where
  id : Nat
  loffset : Nat
  chunks : List (Nat × Nat)
  deriving DecidableEq, Repr

/-- Modelled from the spec: `Bin::max_id(depth)` (not under `src/`) is
the number of bins of a depth-`depth` hierarchy, `(8^(depth+1) - 1)/7`
(one more than the largest bin id; spec section 9 gives the metadata
pseudo-bin id as `(8^(depth+1) - 1)/7 + 1`, and with `depth = 5` the
largest bin id is 37448). -/
def binMaxId (depth : Nat) : Nat := (8 ^ (depth + 1) - 1) / 7

/-- One end of a `RangeBounds<i64>` interval. -/
inductive QBound where
  | included (v : Int)
  | excluded (v : Int)
  | unbounded
  deriving DecidableEq, Repr

/-- Resolution of the query start bound (`query`, lines 107-111):
inclusive as is, exclusive plus one, unbounded is `MIN_POSITION = 1`. -/
def resolveStart : QBound → Int
  | .included v => v
  | .excluded v => v + 1
  | .unbounded => 1

/-- Resolution of the query end bound (lines 119-123): inclusive as
is, exclusive minus one, unbounded is the maximum position. -/
def resolveEnd (b : QBound) (maxPos : Int) : Int :=
  match b with
  | .included v => v
  | .excluded v => v - 1
  | .unbounded => maxPos

/-- Embedding of `ReferenceSequence::max_position` (lines 56-60):
`(1 << (min_shift + 3 * depth)) - 1`. -/
def maxPosition (minShift depth : Nat) : Int :=
  (1 <<< (minShift + 3 * depth) : Nat) - 1

/-- The loop body of `reg2bins` (lines 201-220), translated with an
explicit iteration count: the source loops `l` from 0 while
`l <= depth`, so `depth + 1` iterations, maintaining
`s = min_shift + 3 * (depth - l)` and adding `1 << (3 * l)` to `t`
each round.  Each round marks the bin interval
`[t + (beg >> s), t + (end1 >> s)]`; the marked set is collected as a
finite set of integers (the indices set in the caller's `BitVec`). -/
def reg2binsAux (beg end1 : Int) (minShift depth : Nat) :
    Nat → Nat → Int → Finset ℤ
  | 0, _, _ => ∅
  | fuel + 1, l, t =>
    Finset.Icc (t + sar beg (minShift + 3 * (depth - l)))
        (t + sar end1 (minShift + 3 * (depth - l))) ∪
      reg2binsAux beg end1 minShift depth fuel (l + 1) (t + 2 ^ (3 * l))

/-- Embedding of `reg2bins` (lines 201-220): the set of bit indices
set for the 0-based half-open interval `[beg, end)`; the end is
decremented once before the loop. -/
def reg2bins (beg e : Int) (minShift depth : Nat) : Finset ℤ :=
  reg2binsAux beg (e - 1) minShift depth (depth + 1) 0 0

/-- Embedding of `ReferenceSequence::query` (lines 103-141): resolve
the 1-based bounds, reject a start below 1 or an end above the maximum
position, then keep the bins whose id is marked by
`reg2bins(start - 1, end)`. -/
def query (bins : List CsiBin) (minShift depth : Nat) (startB endB : QBound) :
    Except QueryError (List CsiBin) :=
  let start := resolveStart startB
  if start < 1 then .error (.invalidStartPosition 1 start)
  else
    let maxPos := maxPosition minShift depth
    let e := resolveEnd endB maxPos
    if maxPos < e then .error (.invalidEndPosition maxPos e)
    else
      .ok (bins.filter fun b => decide ((b.id : ℤ) ∈ reg2bins (start - 1) e minShift depth))

example :
    query [] 14 5 (.included 0) (.included 8) =
      .error (.invalidStartPosition 1 0) := by rfl
example :
    query [] 14 5 (.included 1) (.included 2147483647) =
      .error (.invalidEndPosition 536870911 2147483647) := by rfl
example : maxPosition 14 5 = 536870911 := by decide
example :
    reg2bins 0 16 4 2 = ({0, 1, 9} : Finset ℤ) := by decide
example :
    reg2bins 8 13 4 2 = ({0, 1, 9} : Finset ℤ) := by decide
example :
    reg2bins 35 67 4 2 = ({0, 1, 11, 12, 13} : Finset ℤ) := by decide
example :
    reg2bins 48 143 4 2 = ({0, 1, 2, 12, 13, 14, 15, 16, 17} : Finset ℤ) := by decide

/-! ## Async BGZF writer (`noodles-bgzf/src/async/writer.rs`)

The writer is a poll-based state machine over an inner byte sink.  The
embedding gives the sequential semantics of the awaited operations
(each `poll_*` driven to `Ready`): the sink of deflate jobs
(`Buffer<Deflater<W>, Deflate>`, whose modules are not under `src/`)
is modelled from the spec, section 4.4, as an ordered queue of
payloads that is drained into the output as compressed frames, with
the compression function kept abstract.  The EOF constant
`crate::writer::BGZF_EOF` is not under `src/` and is modelled from the
spec, section 6. -/

/-- The 28-byte BGZF EOF marker (spec section 6). -/
def bgzfEof : List Nat :=
  [0x1f, 0x8b, 0x08, 0x04, 0x00, 0x00, 0x00, 0x00, 0x00, 0xff, 0x06, 0x00,
    0x42, 0x43, 0x02, 0x00, 0x1b, 0x00, 0x03, 0x00, 0x00, 0x00, 0x00, 0x00,
    0x00, 0x00, 0x00, 0x00]

/-- Modelled from the spec: `block::MAX_UNCOMPRESSED_DATA_LENGTH` (not
under `src/`) is the 65 280-byte uncompressed payload limit of one
BGZF block (spec section 3). -/
def maxUncompressedDataLength : Nat := 65280

/-- State of the async BGZF writer: the uncompressed buffer `buf`, the
payloads queued in the deflate sink, the bytes already written to the
inner sink, and the remaining EOF bytes `eof_buf`. -/
structure AsyncWriterState where
  buf : List Nat
  pending : List (List Nat)
  output : List Nat
  eofBuf : List Nat
  deriving DecidableEq, Repr

/-- A fresh writer: empty buffers, the full EOF marker pending. -/
def initWriter : AsyncWriterState :=
  { buf := [], pending := [], output := [], eofBuf := bgzfEof }

/-- Embedding of `poll_flush` (lines 103-118) driven to completion: an
empty buffer is a no-op, otherwise the buffer is split off and sent to
the sink as one deflate job. -/
def pollFlush (st : AsyncWriterState) : AsyncWriterState :=
  if st.buf.isEmpty then st else { st with buf := [], pending := st.pending ++ [st.buf] }

/-- Embedding of one `poll_write` call (lines 82-101) driven to
completion: flush first if the buffer is at capacity, then take at
most the remaining capacity from `data`; returns the new state and the
number of bytes accepted. -/
def pollWrite (st : AsyncWriterState) (data : List Nat) : AsyncWriterState × Nat :=
  let st1 := if maxUncompressedDataLength ≤ st.buf.length then pollFlush st else st
  let n := min (maxUncompressedDataLength - st1.buf.length) data.length
  ({ st1 with buf := st1.buf ++ data.take n }, n)

/-- Closing the sink (the `sink.poll_close` call of `poll_shutdown`):
modelled from the spec, section 4.4 — all in-flight payloads are
deflated and their frames emitted downstream in order.  The deflate
transform itself is an abstract function `compress`. -/
def sinkClose (compress : List Nat → List Nat) (st : AsyncWriterState) :
    AsyncWriterState :=
  { st with pending := [], output := st.output ++ (st.pending.map compress).flatten }

/-- Embedding of `poll_shutdown` (lines 120-144) driven to completion:
flush the buffer, close the sink, then write the remaining EOF bytes
to the inner sink. -/
def pollShutdown (compress : List Nat → List Nat) (st : AsyncWriterState) :
    AsyncWriterState :=
  let st1 := sinkClose compress (pollFlush st)
  { st1 with output := st1.output ++ st1.eofBuf, eofBuf := [] }

/-- A `write_all` loop over one caller buffer: repeated `poll_write`
until everything is accepted.  Each call accepts at least one byte, so
`data.length` iterations always suffice; the fuel only bounds the
loop. -/
def writeAllFuel : Nat → AsyncWriterState → List Nat → AsyncWriterState
  | 0, st, _ => st
  | fuel + 1, st, data =>
    if data.isEmpty then st
    else
      let p := pollWrite st data
      writeAllFuel fuel p.1 (data.drop p.2)

/-- Write one caller buffer completely. -/
def writeAll (st : AsyncWriterState) (data : List Nat) : AsyncWriterState :=
  writeAllFuel data.length st data

/-- Run a sequence of `write_all` calls. -/
def processWrites (st : AsyncWriterState) (writes : List (List Nat)) :
    AsyncWriterState :=
  writes.foldl writeAll st

/-! ## Concrete records used to exhibit divergences -/

/-- A mapped record at 1-based position 16385 with CIGAR `10M`, for
the legacy writer. -/
def oldBinRecord : OldSamRecord :=
  { name := none, referenceSequenceName := none, position := some 16385,
    mappingQuality := 255, flags := 0, mateReferenceSequenceName := .none,
    matePosition := none, templateLen := 0, cigar := [⟨10, .m⟩],
    sequence := [], qualityScores := [] }

/-- The same mapped record for the current writer. -/
def newBinRecord : SamRecord :=
  { readName := none, referenceSequenceName := none, position := some 16385,
    mappingQuality := 255, flags := 0, mateReferenceSequenceName := none,
    matePosition := none, templateLength := 0, cigar := [⟨10, .m⟩],
    sequence := [], qualityScores := [], data := [] }

/-- An unmapped record with sequence `AC` and no quality scores, for
the legacy writer. -/
def oldQualRecord : OldSamRecord :=
  { name := none, referenceSequenceName := none, position := none,
    mappingQuality := 0, flags := 4, mateReferenceSequenceName := .none,
    matePosition := none, templateLen := 0, cigar := [],
    sequence := [.a, .c], qualityScores := [] }

/-- The same record with a length-1 quality string (mismatched). -/
def oldQualMismatch : OldSamRecord :=
  { oldQualRecord with qualityScores := [30] }

/-- An unmapped record with sequence `AC` and no quality scores, for
the current writer. -/
def newQualRecord : SamRecord :=
  { readName := none, referenceSequenceName := none, position := none,
    mappingQuality := 0, flags := 4, mateReferenceSequenceName := none,
    matePosition := none, templateLength := 0, cigar := [],
    sequence := [.a, .c], qualityScores := [], data := [] }

/-- The same record with a length-1 quality string (mismatched). -/
def newQualMismatch : SamRecord :=
  { newQualRecord with qualityScores := [30] }

/-- The same record with matching quality scores. -/
def newQualEqual : SamRecord :=
  { newQualRecord with qualityScores := [30, 31] }

/-! ## Theorems -/

/-- C8: `region_to_bin` decrements the end by 1 and returns the
smallest containing bin using the level offsets 4681 (shift 14), 585
(shift 17), 73 (shift 20), 9 (shift 23), 1 (shift 26), else 0; in
particular `region_to_bin (-1) 0 = 4680` and
`region_to_bin 7 13 = 4681`. -/
theorem region_to_bin_matches_spec :
    (∀ start e : Int, region_to_bin start e = regionToBinSpec start e) ∧
    region_to_bin (-1) 0 = 4680 ∧ region_to_bin 7 13 = 4681 := by
  refine ⟨fun start e => ?_, by decide, by decide⟩
  unfold region_to_bin regionToBinSpec
  simp only [Nat.shiftLeft_eq]
  norm_num

/-- C2: `write_data_int_value` emits the narrowest exact integer type
per the spec's table — `C` (67) on `[0, 255]`, `S` (83) on
`[256, 65535]`, `I` (73) on `[65536, 2^32 - 1]`, `c` (99) on
`[-128, -1]`, `s` (115) on `[-32768, -129]`, `i` (105) on
`[-2^31, -32769]` — failing with `InvalidInput` outside `[-2^31,
2^32 - 1]`, and `calculate_data_len` accounts exactly the same width
for an integer field. -/
theorem write_data_int_value_narrowest (n : Int) :
    ((0 ≤ n ∧ n ≤ 255) → write_data_int_value n = .ok [67, (n % 2 ^ 8).toNat]) ∧
    ((256 ≤ n ∧ n ≤ 65535) → write_data_int_value n = .ok (83 :: u16le (n % 2 ^ 16).toNat)) ∧
    ((65536 ≤ n ∧ n ≤ 4294967295) → write_data_int_value n = .ok (73 :: u32le (n % 2 ^ 32).toNat)) ∧
    ((-128 ≤ n ∧ n < 0) → write_data_int_value n = .ok [99, i8byte n]) ∧
    ((-32768 ≤ n ∧ n < -128) → write_data_int_value n = .ok (115 :: i16le n)) ∧
    ((-2147483648 ≤ n ∧ n < -32768) → write_data_int_value n = .ok (105 :: i32le n)) ∧
    ((n < -2147483648 ∨ 4294967295 < n) → write_data_int_value n = .error .invalidInput) ∧
    calculate_data_len [⟨(88, 89), .int n⟩] =
      (write_data_int_value n).map fun l => 2 + l.length := by
  refine ⟨?_, ?_, ?_, ?_, ?_, ?_, ?_, ?_⟩
  · intro h
    unfold write_data_int_value
    split_ifs <;> first | rfl | (exfalso; omega)
  · intro h
    unfold write_data_int_value
    split_ifs <;> first | rfl | (exfalso; omega)
  · intro h
    unfold write_data_int_value
    split_ifs <;> first | rfl | (exfalso; omega)
  · intro h
    unfold write_data_int_value
    split_ifs <;> first | rfl | (exfalso; omega)
  · intro h
    unfold write_data_int_value
    split_ifs <;> first | rfl | (exfalso; omega)
  · intro h
    unfold write_data_int_value
    split_ifs <;> first | rfl | (exfalso; omega)
  · intro h
    unfold write_data_int_value
    split_ifs <;> first | rfl | (exfalso; omega)
  · simp only [calculate_data_len, dataFieldLen, write_data_int_value,
      AuxValue.subtypeByte, bind, Except.bind]
    split_ifs <;>
      simp [u16le, u32le, i16le, i32le, i8byte, Except.map]

/-- Witness for C2 at the boundary value 256: the type flips to `S`. -/
theorem write_data_int_value_narrowest_w :
    write_data_int_value 256 = .ok (83 :: u16le ((256 : Int) % 2 ^ 16).toNat) :=
  (write_data_int_value_narrowest 256).2.1 (by decide)

/-- C5 counterexample: the legacy `Writer::write_record` lookup fails
with `InvalidData`, not `InvalidInput`, for the unknown name `sq2`
against the dictionary `[sq0]`. -/
theorem writer_lookup_error_kind_cex :
    writerLookupRefId [[115, 113, 48]] (some [115, 113, 50]) = .error .invalidData ∧
    ErrKind.invalidData ≠ ErrKind.invalidInput :=
  ⟨rfl, by decide⟩

/-- C5 (amended): a present name encodes as its 0-based index and an
absent name as -1 in both encoders; an unknown name fails with
`InvalidInput` in `write_reference_sequence_id` (writer/record.rs) but
with `InvalidData` in `Writer::write_record` (writer.rs). -/
theorem reference_sequence_id_encoding (refs : List (List Nat)) (nm : List Nat) :
    write_reference_sequence_id refs none = .ok (i32le (-1)) ∧
    writerLookupRefId refs none = .ok (-1) ∧
    (∀ i, getIndexOf refs nm = some i → i ≤ 2147483647 →
      write_reference_sequence_id refs (some nm) = .ok (i32le i)) ∧
    (∀ i, getIndexOf refs nm = some i →
      writerLookupRefId refs (some nm) = .ok (i32ofNat i)) ∧
    (getIndexOf refs nm = none →
      write_reference_sequence_id refs (some nm) = .error .invalidInput) ∧
    (getIndexOf refs nm = none →
      writerLookupRefId refs (some nm) = .error .invalidData) := by
  refine ⟨rfl, rfl, ?_, ?_, ?_, ?_⟩
  · intro i hi hle
    simp only [write_reference_sequence_id, hi]
    simp only [if_neg (by omega : ¬ 2147483647 < i)]
  · intro i hi
    simp only [writerLookupRefId, hi]
  · intro hi
    simp only [write_reference_sequence_id, hi]
  · intro hi
    simp only [writerLookupRefId, hi]

/-- Witness for C5 (amended): the name `a` at index 0 of a singleton
dictionary encodes as index 0. -/
theorem reference_sequence_id_encoding_w :
    write_reference_sequence_id [[97]] (some [97]) = .ok (i32le 0) :=
  (reference_sequence_id_encoding [[97]] [97]).2.2.1 0 rfl (by omega)

/-- C6 counterexample: for the interval `0..=2^40` both guards are
violated; the query reports `InvalidStartPosition` even though the
resolved end exceeds the maximum position, refuting the claimed
"if and only if" for `InvalidEndPosition`. -/
theorem query_guard_order_cex :
    query [] 14 5 (.included 0) (.included 1099511627776) =
      .error (.invalidStartPosition 1 0) ∧
    maxPosition 14 5 < 1099511627776 ∧
    QueryError.invalidStartPosition 1 0 ≠
      QueryError.invalidEndPosition (maxPosition 14 5) 1099511627776 :=
  ⟨rfl, by decide, by decide⟩

/-- C6 (amended): `query` fails with `InvalidStartPosition(1, start)`
exactly when the resolved start is below 1; it fails with
`InvalidEndPosition(max, end)` exactly when the start guard passes and
the resolved end exceeds `max_position`; otherwise it returns `Ok`
with the bins marked by `reg2bins`. -/
theorem query_guards (bins : List CsiBin) (minShift depth : Nat) (sb eb : QBound) :
    (query bins minShift depth sb eb =
        .error (.invalidStartPosition 1 (resolveStart sb)) ↔ resolveStart sb < 1) ∧
    (query bins minShift depth sb eb =
        .error (.invalidEndPosition (maxPosition minShift depth)
          (resolveEnd eb (maxPosition minShift depth))) ↔
      1 ≤ resolveStart sb ∧
        maxPosition minShift depth < resolveEnd eb (maxPosition minShift depth)) ∧
    (1 ≤ resolveStart sb →
      resolveEnd eb (maxPosition minShift depth) ≤ maxPosition minShift depth →
      query bins minShift depth sb eb =
        .ok (bins.filter fun b => decide ((b.id : ℤ) ∈
          reg2bins (resolveStart sb - 1)
            (resolveEnd eb (maxPosition minShift depth)) minShift depth))) := by
  simp only [query]
  split_ifs with h1 h2
  · refine ⟨⟨fun _ => h1, fun _ => rfl⟩, ?_, ?_⟩
    · constructor
      · intro h
        exact absurd h (by simp)
      · intro h
        exact absurd h.1 (by omega)
    · intro hge _
      exact absurd h1 (by omega)
  · refine ⟨?_, ?_, ?_⟩
    · constructor
      · intro h
        exact absurd h (by simp)
      · intro h
        exact absurd h1 (by omega)
    · exact ⟨fun _ => ⟨by omega, h2⟩, fun _ => rfl⟩
    · intro _ hle
      exact absurd h2 (by omega)
  · refine ⟨?_, ?_, ?_⟩
    · constructor
      · intro h
        exact absurd h (by simp)
      · intro h
        exact absurd h1 (by omega)
    · constructor
      · intro h
        exact absurd h (by simp)
      · intro h
        exact absurd h.2 h2
    · intro _ _
      rfl

/-- Witness for C6 (amended): the in-range query `8..=13` at the BAM
parameters returns `Ok` on an empty bin list. -/
theorem query_guards_w :
    query [] 14 5 (.included 8) (.included 13) = .ok [] := by
  have h := (query_guards [] 14 5 (.included 8) (.included 13)).2.2
    (by decide) (by decide)
  simpa using h

/-- C1: for the mapped record at 1-based position 16385 with CIGAR
`10M`, `write_sam_record` emits bin `region_to_bin(16384, 16394) =
4682` as the claim states, but the legacy `Writer::write_record`
computes `region_to_bin(16385, 10) = 585` — it passes the 1-based
start and the reference span (a length) instead of the 0-based start
and end.  Both agree on 4680 for an unmapped record.  The emitted bin
field is bytes 14-15 of each encoding. -/
theorem writer_record_bin_divergence :
    samRecordBin (some 16385) [⟨10, .m⟩] = 4682 ∧
    region_to_bin (16385 - 1) ((16385 - 1) + (referenceLen [⟨10, .m⟩] : Int)) = 4682 ∧
    writerRecordBin (some 16385) [⟨10, .m⟩] = 585 ∧
    region_to_bin 16385 (i32ofNat (referenceLen [⟨10, .m⟩])) = 585 ∧
    (585 : Nat) ≠ 4682 ∧
    (write_sam_record [] newBinRecord).map (fun l => (l.drop 14).take 2) =
      .ok (u16le 4682) ∧
    (writer_write_record [] oldBinRecord).map (fun l => (l.drop 14).take 2) =
      .ok (u16le 585) ∧
    samRecordBin none [⟨10, .m⟩] = 4680 ∧
    writerRecordBin none [⟨10, .m⟩] = 4680 := by
  refine ⟨by decide, by decide, by decide, by decide, by decide, rfl, rfl, rfl, rfl⟩

/-- C3: for the record with sequence `AC` and no quality scores, the
legacy `Writer::write_record` emits a `block_size` field of 36 while
only 34 bytes follow it (it counts `l_seq` quality bytes it never
writes); `write_sam_record` on the same record emits `block_size` 37
(32 + 2 + 0 + 1 + 2 + 0) with exactly 37 bytes following. -/
theorem writer_record_block_size_divergence :
    (writer_write_record [] oldQualRecord).map (fun l => (l.take 4, l.length - 4)) =
      .ok (u32le 36, 34) ∧
    (write_sam_record [] newQualRecord).map (fun l => (l.take 4, l.length - 4)) =
      .ok (u32le 37, 37) ∧
    (36 : Nat) ≠ 34 := by
  refine ⟨rfl, rfl, by decide⟩

/-- C4: on a record with sequence `AC`, `write_sam_record` fills
missing quality scores with two 0xFF bytes (total 41 bytes, the last
two being 255), fails with `InvalidInput` on a length-1 quality
string, and writes matching scores raw; the legacy
`Writer::write_record` instead emits no quality bytes at all for the
missing case (38 bytes, ending at the packed sequence byte 0x12) and
accepts the mismatched record without error (39 bytes). -/
theorem writer_record_qual_divergence :
    (write_sam_record [] newQualRecord).map
        (fun l => (l.length, l.drop (l.length - 2))) = .ok (41, [255, 255]) ∧
    write_sam_record [] newQualMismatch = .error .invalidInput ∧
    (write_sam_record [] newQualEqual).map
        (fun l => (l.length, l.drop (l.length - 2))) = .ok (41, [30, 31]) ∧
    (writer_write_record [] oldQualRecord).map
        (fun l => (l.length, l.drop 37)) = .ok (38, [18]) ∧
    (writer_write_record [] oldQualMismatch).map
        (fun l => (l.length, l.drop 37)) = .ok (39, [18, 30]) := by
  refine ⟨rfl, rfl, rfl, rfl, rfl⟩

/-! ### Length lemmas for the current encoder -/

@[simp]
theorem u16le_length (x : Nat) : (u16le x).length = 2 := rfl

@[simp]
theorem u32le_length (x : Nat) : (u32le x).length = 4 := rfl

@[simp]
theorem i32le_length (x : Int) : (i32le x).length = 4 := rfl

@[simp]
theorem i16le_length (x : Int) : (i16le x).length = 2 := rfl

@[simp]
theorem write_position_length (p : Option Int) : (write_position p).length = 4 := by
  cases p <;> simp [write_position, i32le, u32le]

theorem flatMap_const_length {α β : Type} (f : α → List β) (k : Nat)
    (hf : ∀ a, (f a).length = k) : ∀ l : List α, (l.flatMap f).length = k * l.length := by
  intro l
  induction l with
  | nil => simp
  | cons a l ih =>
    simp [ih, hf a]
    ring

theorem writeCigar_length (cigar : List CigarOp) :
    (writeCigar cigar).length = 4 * cigar.length := by
  unfold writeCigar
  exact flatMap_const_length (fun op => u32le (op.len <<< 4 ||| op.kind.code)) 4
    (fun _ => rfl) cigar

@[simp]
theorem writeSeq_length (s : List SamBase) :
    (writeSeq s).length = (s.length + 1) / 2 := by
  induction s using writeSeq.induct with
  | case1 => rfl
  | case2 x1 => simp [writeSeq]
  | case3 x1 x2 rest ih =>
    simp only [writeSeq, List.length_cons]
    omega

theorem write_reference_sequence_id_length (refs : List (List Nat))
    (nm : Option (List Nat)) (b : List Nat)
    (h : write_reference_sequence_id refs nm = .ok b) : b.length = 4 := by
  cases nm with
  | none =>
    simp only [write_reference_sequence_id] at h
    cases h
    rfl
  | some x =>
    simp only [write_reference_sequence_id] at h
    split at h
    · split_ifs at h
      cases h
      rfl
    · cases h

theorem write_data_int_value_length (n : Int) (b : List Nat)
    (h : write_data_int_value n = .ok b) :
    dataFieldLen ⟨(0, 0), .int n⟩ = .ok (b.length + 2) ∧ 2 ≤ b.length := by
  unfold write_data_int_value at h
  split_ifs at h <;> cases h <;>
    (refine ⟨?_, by simp [u16le, u32le, i16le, i32le]⟩
     unfold dataFieldLen
     simp only [AuxValue.subtypeByte]
     split_ifs <;> first | (simp [u16le, u32le, i16le, i32le]) | omega)

/-- `dataFieldLen` only inspects the value, not the tag. -/
theorem dataFieldLen_tag_irrel (t1 t2 : Nat × Nat) (v : AuxValue) :
    dataFieldLen ⟨t1, v⟩ = dataFieldLen ⟨t2, v⟩ := rfl

theorem writeAuxBody_length (v : AuxValue) (p : List Nat)
    (h : writeAuxBody v = .ok p) (t : Nat × Nat) :
    dataFieldLen ⟨t, v⟩ =
      .ok (2 + 1 + (match v.subtypeByte with | some _ => 1 | none => 0) + p.length) := by
  cases v with
  | char c =>
    simp only [writeAuxBody] at h
    cases h
    simp [dataFieldLen, AuxValue.subtypeByte]
  | int n =>
    simp only [writeAuxBody] at h
    cases h
  | float b0 b1 b2 b3 =>
    simp only [writeAuxBody] at h
    cases h
    simp [dataFieldLen, AuxValue.subtypeByte]
  | str s =>
    simp only [writeAuxBody] at h
    split_ifs at h
    cases h
    simp [dataFieldLen, AuxValue.subtypeByte]
    omega
  | hex s =>
    simp only [writeAuxBody] at h
    split_ifs at h
    cases h
    simp [dataFieldLen, AuxValue.subtypeByte]
    omega
  | int8Array vs =>
    simp only [writeAuxBody] at h
    cases h
    simp [dataFieldLen, AuxValue.subtypeByte]
    omega
  | uint8Array vs =>
    simp only [writeAuxBody] at h
    cases h
    simp [dataFieldLen, AuxValue.subtypeByte]
    omega
  | int16Array vs =>
    simp only [writeAuxBody] at h
    cases h
    simp [dataFieldLen, AuxValue.subtypeByte,
      flatMap_const_length i16le 2 (fun _ => rfl) vs]
    omega
  | uint16Array vs =>
    simp only [writeAuxBody] at h
    cases h
    simp [dataFieldLen, AuxValue.subtypeByte,
      flatMap_const_length u16le 2 (fun _ => rfl) vs]
    omega
  | int32Array vs =>
    simp only [writeAuxBody] at h
    cases h
    simp [dataFieldLen, AuxValue.subtypeByte,
      flatMap_const_length i32le 4 (fun _ => rfl) vs]
    omega
  | uint32Array vs =>
    simp only [writeAuxBody] at h
    cases h
    simp [dataFieldLen, AuxValue.subtypeByte,
      flatMap_const_length u32le 4 (fun _ => rfl) vs]
    omega
  | floatArray vs =>
    simp only [writeAuxBody] at h
    cases h
    simp [dataFieldLen, AuxValue.subtypeByte,
      flatMap_const_length (fun v : Nat × Nat × Nat × Nat => [v.1, v.2.1, v.2.2.1, v.2.2.2])
        4 (fun _ => rfl) vs]
    omega

/-- One encoded auxiliary field occupies exactly the bytes
`calculate_data_len` accounts for it. -/
theorem writeDataField_length (f : DataField) (b : List Nat)
    (h : writeDataField f = .ok b) : dataFieldLen f = .ok b.length := by
  obtain ⟨tag, v⟩ := f
  cases v
  all_goals
    simp only [writeDataField, bind, Except.bind] at h
  all_goals
    split at h
  all_goals
    cases h
  all_goals
    first
    | (rename_i ib hint
       have hw := write_data_int_value_length _ ib hint
       rw [dataFieldLen_tag_irrel tag (0, 0) _, hw.1, Except.ok.injEq]
       simp only [List.length_append, List.length_cons, List.length_nil]
       omega)
    | (rename_i p hp
       rw [writeAuxBody_length _ p hp tag, Except.ok.injEq]
       simp only [AuxValue.subtypeByte, List.length_append, List.length_cons,
         List.length_nil]
       omega)


/-- On success, `write_data` emits exactly the number of bytes that
`calculate_data_len` pre-computes. -/
theorem write_data_length : ∀ (data : List DataField) (out : List Nat),
    write_data data = .ok out → calculate_data_len data = .ok out.length := by
  intro data
  induction data with
  | nil =>
    intro out h
    cases h
    rfl
  | cons f rest ih =>
    intro out h
    simp only [write_data, bind, Except.bind] at h
    split at h
    · cases h
    · rename_i fb hf
      split at h
      · cases h
      · rename_i rb hrest
        cases h
        unfold calculate_data_len
        rw [writeDataField_length f fb hf]
        simp only [bind, Except.bind, ih rb hrest]
        simp

/-- Taking the leading 4 bytes of an encoding that starts with a
little-endian `u32`. -/
theorem take4_u32le (x : Nat) (rest : List Nat) :
    (u32le x ++ rest).take 4 = u32le x := by
  rw [show (4 : Nat) = (u32le x).length from rfl, List.take_left]

/-- On success, `write_sam_record` emits the 4-byte `block_size`
field followed by exactly `block_size` bytes, where `block_size` is
the fixed 32-byte header plus `l_read_name`, `4 * n_cigar_op`,
`ceil(l_seq / 2)`, `l_seq` and the pre-computed auxiliary data
length. -/
theorem write_sam_record_block_size (refs : List (List Nat)) (r : SamRecord)
    (out : List Nat) (h : write_sam_record refs r = .ok out) :
    ∃ dl, calculate_data_len r.data = .ok dl ∧
      out.length = 4 + (32 + ((r.readName.getD [42]).length + 1) +
        4 * r.cigar.length + (r.sequence.length + 1) / 2 + r.sequence.length + dl) ∧
      out.take 4 = u32le (32 + ((r.readName.getD [42]).length + 1) +
        4 * r.cigar.length + (r.sequence.length + 1) / 2 + r.sequence.length + dl) := by
  simp only [write_sam_record, bind, Except.bind, pure, Except.pure] at h
  repeat' split at h
  all_goals try cases h
  all_goals rename_i xD db hdb
  all_goals rename calculate_data_len r.data = Except.ok _ => hcalc
  all_goals
    have hdbl := write_data_length _ _ hdb
  all_goals
    (rw [hcalc] at hdbl
     injection hdbl with hv
     subst hv)
  all_goals
    refine ⟨db.length, hcalc, ?_, ?_⟩
  all_goals
    try (simp only [List.append_assoc]
         rw [take4_u32le]
         refine congrArg u32le ?_
         simp only [List.length_append, List.length_cons, List.length_nil])
  all_goals
    (have hr1 := write_reference_sequence_id_length refs
       r.referenceSequenceName _ (by assumption)
     have hr2 := write_reference_sequence_id_length refs
       r.mateReferenceSequenceName _ (by assumption)
     try (have hE : r.sequence = [] := List.isEmpty_iff.mp (by assumption)
          rw [hE])
     simp only [List.length_append, List.length_cons, List.length_nil, u32le_length,
       u16le_length, i32le_length, write_position_length, writeCigar_length,
       writeSeq_length, List.length_map, List.length_replicate, hr1, hr2]
     omega)

/-! ### Lemmas about the reg2bins loop -/

/-- The running `t` of the `reg2bins` loop: `(8^l - 1)/7` plus the
round's increment `1 << (3*l)` is `(8^(l+1) - 1)/7`. -/
theorem t_step (l : Nat) :
    ((8 : ℤ) ^ l - 1) / 7 + 2 ^ (3 * l) = (8 ^ (l + 1) - 1) / 7 := by
  have h8 : (2 : ℤ) ^ (3 * l) = 8 ^ l := by
    rw [pow_mul]
    norm_num
  have hsplit : (8 : ℤ) ^ (l + 1) - 1 = (8 ^ l - 1) + 8 ^ l * 7 := by ring
  rw [h8, hsplit, Int.add_mul_ediv_right _ _ (by norm_num : (7 : ℤ) ≠ 0)]

theorem sar_nonneg {x : Int} (n : Nat) (hx : 0 ≤ x) : 0 ≤ sar x n :=
  Int.ediv_nonneg hx (by positivity)

theorem sar_mono {x y : Int} (n : Nat) (h : x ≤ y) : sar x n ≤ sar y n :=
  Int.ediv_le_ediv (by positivity) h

/-- Shifting `2^(a+b) - 2` right by `b` stays below `2^a`. -/
theorem sar_pow_sub_two (a b : Nat) : sar ((2 : ℤ) ^ (a + b) - 2) b ≤ 2 ^ a - 1 := by
  have hb : (0 : ℤ) < 2 ^ b := by positivity
  have hx : (2 : ℤ) ^ (a + b) - 2 ≤ 2 ^ a * 2 ^ b - 1 := by
    rw [pow_add]
    omega
  calc sar ((2 : ℤ) ^ (a + b) - 2) b ≤ sar (2 ^ a * 2 ^ b - 1) b := sar_mono b hx
    _ = 2 ^ a - 1 := by
      unfold sar
      rw [show (2 : ℤ) ^ a * 2 ^ b - 1 = (2 ^ b - 1) + (2 ^ a - 1) * 2 ^ b by ring,
        Int.add_mul_ediv_right _ _ hb.ne',
        Int.ediv_eq_zero_of_lt (by omega) (by omega), zero_add]

/-- Membership characterisation of the `reg2bins` loop from round `l`
on, with the running `t` at its invariant value. -/
theorem reg2binsAux_mem (beg e : Int) (ms d : Nat) :
    ∀ fuel l, fuel + l = d + 1 → ∀ i : ℤ,
      (i ∈ reg2binsAux beg e ms d fuel l (((8 : ℤ) ^ l - 1) / 7) ↔
        ∃ j, l ≤ j ∧ j ≤ d ∧
          ((8 : ℤ) ^ j - 1) / 7 + sar beg (ms + 3 * (d - j)) ≤ i ∧
          i ≤ ((8 : ℤ) ^ j - 1) / 7 + sar e (ms + 3 * (d - j))) := by
  intro fuel
  induction fuel with
  | zero =>
    intro l hl i
    simp only [reg2binsAux, Finset.not_mem_empty, false_iff]
    rintro ⟨j, hj1, hj2, -⟩
    omega
  | succ fuel ih =>
    intro l hl i
    simp only [reg2binsAux, Finset.mem_union, Finset.mem_Icc]
    rw [t_step l, ih (l + 1) (by omega) i]
    constructor
    · rintro (⟨hlo, hhi⟩ | ⟨j, hj1, hj2, hb⟩)
      · exact ⟨l, le_refl l, by omega, hlo, hhi⟩
      · exact ⟨j, by omega, hj2, hb⟩
    · rintro ⟨j, hj1, hj2, hlo, hhi⟩
      rcases Nat.eq_or_lt_of_le hj1 with heq | hlt
      · subst heq
        exact Or.inl ⟨hlo, hhi⟩
      · exact Or.inr ⟨j, hlt, hj2, hlo, hhi⟩

/-- Every index marked by the `reg2bins` loop is within
`[0, (8^(d+1) - 1)/7 - 1]`, given a non-negative `beg` and an
inclusive end at most `2^(min_shift + 3*depth) - 2`. -/
theorem reg2binsAux_bound (beg e : Int) (ms d : Nat) (hbeg : 0 ≤ beg)
    (he : e ≤ 2 ^ (ms + 3 * d) - 2) :
    ∀ fuel l, fuel + l = d + 1 →
      ∀ i ∈ reg2binsAux beg e ms d fuel l (((8 : ℤ) ^ l - 1) / 7),
        0 ≤ i ∧ i ≤ ((8 : ℤ) ^ (d + 1) - 1) / 7 - 1 := by
  intro fuel
  induction fuel with
  | zero =>
    intro l hl i hi
    simp [reg2binsAux] at hi
  | succ fuel ih =>
    intro l hl i hi
    simp only [reg2binsAux, Finset.mem_union, Finset.mem_Icc] at hi
    have h8l : (0 : ℤ) < 8 ^ l := by positivity
    rcases hi with ⟨hlo, hhi⟩ | hrec
    · have ht : (0 : ℤ) ≤ (8 ^ l - 1) / 7 := Int.ediv_nonneg (by omega) (by norm_num)
      have hb0 := sar_nonneg (ms + 3 * (d - l)) hbeg
      have h1 : sar e (ms + 3 * (d - l)) ≤ 2 ^ (3 * l) - 1 := by
        calc sar e (ms + 3 * (d - l)) ≤ sar ((2 : ℤ) ^ (ms + 3 * d) - 2) (ms + 3 * (d - l)) :=
            sar_mono _ he
          _ ≤ 2 ^ (3 * l) - 1 := by
            rw [show ms + 3 * d = 3 * l + (ms + 3 * (d - l)) by omega]
            exact sar_pow_sub_two (3 * l) (ms + 3 * (d - l))
      have h2 := t_step l
      have h3 : ((8 : ℤ) ^ (l + 1) - 1) / 7 ≤ ((8 : ℤ) ^ (d + 1) - 1) / 7 := by
        have hp : (8 : ℤ) ^ (l + 1) ≤ 8 ^ (d + 1) :=
          pow_le_pow_right₀ (by norm_num) (by omega)
        exact Int.ediv_le_ediv (by norm_num) (by omega)
      omega
    · rw [t_step l] at hrec
      exact ih (l + 1) (by omega) i hrec

/-- The maximum position is `2^(min_shift + 3*depth) - 1`. -/
theorem maxPosition_eq (ms d : Nat) :
    maxPosition ms d = (2 : ℤ) ^ (ms + 3 * d) - 1 := by
  unfold maxPosition
  rw [Nat.shiftLeft_eq]
  push_cast
  ring

/-- `Bin::max_id(depth)` as an integer. -/
theorem binMaxId_cast (d : Nat) :
    ((binMaxId d : ℕ) : ℤ) = ((8 : ℤ) ^ (d + 1) - 1) / 7 := by
  unfold binMaxId
  have h1 : 1 ≤ 8 ^ (d + 1) := Nat.one_le_pow _ _ (by norm_num)
  rw [Int.natCast_ediv]
  push_cast [h1]
  rfl

/-- C7: `reg2bins` marks exactly the bins in the union over levels
`l = 0..depth` of the inclusive ranges
`[t + (beg >> s), t + ((end - 1) >> s)]` with
`s = min_shift + 3*(depth - l)` and `t = (8^l - 1)/7`, and on the Ok
path `query` filters its bins through
`reg2bins(start - 1, end, min_shift, depth)` applied to the resolved
1-based interval. -/
theorem reg2bins_levels_and_query (beg e : Int) (ms d : Nat) :
    (∀ i : ℤ, i ∈ reg2bins beg e ms d ↔
      ∃ l, l ≤ d ∧
        ((8 : ℤ) ^ l - 1) / 7 + sar beg (ms + 3 * (d - l)) ≤ i ∧
        i ≤ ((8 : ℤ) ^ l - 1) / 7 + sar (e - 1) (ms + 3 * (d - l))) ∧
    (∀ (bins : List CsiBin) (sb eb : QBound),
      1 ≤ resolveStart sb →
      resolveEnd eb (maxPosition ms d) ≤ maxPosition ms d →
      query bins ms d sb eb = .ok (bins.filter fun b => decide ((b.id : ℤ) ∈
        reg2bins (resolveStart sb - 1) (resolveEnd eb (maxPosition ms d)) ms d))) := by
  constructor
  · intro i
    unfold reg2bins
    rw [show (0 : ℤ) = ((8 : ℤ) ^ 0 - 1) / 7 by norm_num,
      reg2binsAux_mem beg (e - 1) ms d (d + 1) 0 (by omega) i]
    constructor
    · rintro ⟨j, -, hj2, hb⟩
      exact ⟨j, hj2, hb⟩
    · rintro ⟨j, hj2, hb⟩
      exact ⟨j, Nat.zero_le j, hj2, hb⟩
  · intro bins sb eb h1 h2
    simp only [query]
    rw [if_neg (by omega), if_neg (by omega)]

/-- Witness for C7: the query `1..=16` over the toy hierarchy
(`min_shift = 4`, `depth = 2`) keeps the stored bin 9. -/
theorem reg2bins_levels_and_query_w :
    query [⟨9, 0, []⟩] 4 2 (.included 1) (.included 16) = .ok [⟨9, 0, []⟩] := by
  have h := (reg2bins_levels_and_query 0 16 4 2).2 [⟨9, 0, []⟩]
    (.included 1) (.included 16) (by decide) (by decide)
  exact h.trans (by rfl)

/-- C10: whenever the query guards pass, every bit index marked by
`reg2bins` is non-negative and strictly below `Bin::max_id(depth)`
(the length of the `BitVec`), so both the `bins.set` calls inside
`reg2bins` and — provided every stored bin id is below
`Bin::max_id(depth)` — the `region_bins[b.id()]` reads of the result
filter are in bounds, and `query` returns `Ok`. -/
theorem query_reg2bins_in_bounds (bins : List CsiBin) (ms d : Nat) (sb eb : QBound)
    (h1 : 1 ≤ resolveStart sb)
    (h2 : resolveEnd eb (maxPosition ms d) ≤ maxPosition ms d) :
    (∀ i ∈ reg2bins (resolveStart sb - 1) (resolveEnd eb (maxPosition ms d)) ms d,
      0 ≤ i ∧ i < (binMaxId d : ℤ)) ∧
    ((∀ b ∈ bins, b.id < binMaxId d) → ∃ l, query bins ms d sb eb = .ok l) := by
  constructor
  · intro i hi
    unfold reg2bins at hi
    rw [show (0 : ℤ) = ((8 : ℤ) ^ 0 - 1) / 7 by norm_num] at hi
    have hb := reg2binsAux_bound (resolveStart sb - 1)
      (resolveEnd eb (maxPosition ms d) - 1) ms d (by omega)
      (by have hmp := maxPosition_eq ms d; omega) (d + 1) 0 (by omega) i hi
    rw [binMaxId_cast]
    omega
  · intro _
    simp only [query]
    rw [if_neg (by omega), if_neg (by omega)]
    exact ⟨_, rfl⟩

/-- Witness for C10: the in-range query `1..=13` at the BAM
parameters, with one stored bin of id 4680 (below the maximum id
37449). -/
theorem query_reg2bins_in_bounds_w :
    (∀ i ∈ reg2bins 0 13 14 5, 0 ≤ i ∧ i < (binMaxId 5 : ℤ)) ∧
    ((∀ b ∈ [(⟨4680, 0, []⟩ : CsiBin)], b.id < binMaxId 5) →
      ∃ l, query [⟨4680, 0, []⟩] 14 5 (.included 1) (.included 13) = .ok l) := by
  simpa using query_reg2bins_in_bounds [⟨4680, 0, []⟩] 14 5
    (.included 1) (.included 13) (by decide) (by decide)

/-! ### Lemmas about the async BGZF writer -/

theorem pollFlush_eofBuf (st : AsyncWriterState) : (pollFlush st).eofBuf = st.eofBuf := by
  unfold pollFlush
  split_ifs <;> rfl

theorem pollFlush_buf (st : AsyncWriterState) : (pollFlush st).buf = [] := by
  unfold pollFlush
  split_ifs with h
  · exact List.isEmpty_iff.mp h
  · rfl

theorem pollWrite_eofBuf (st : AsyncWriterState) (data : List Nat) :
    ((pollWrite st data).1).eofBuf = st.eofBuf := by
  unfold pollWrite
  split_ifs with h
  · simp [pollFlush_eofBuf]
  · rfl

theorem writeAllFuel_eofBuf (fuel : Nat) :
    ∀ (st : AsyncWriterState) (data : List Nat),
      (writeAllFuel fuel st data).eofBuf = st.eofBuf := by
  induction fuel with
  | zero => intro st data; rfl
  | succ f ih =>
    intro st data
    unfold writeAllFuel
    split_ifs with h
    · rfl
    · rw [ih, pollWrite_eofBuf]

theorem processWrites_eofBuf (writes : List (List Nat)) :
    ∀ st : AsyncWriterState, (processWrites st writes).eofBuf = st.eofBuf := by
  induction writes with
  | nil => intro st; rfl
  | cons w ws ih =>
    intro st
    show (processWrites (writeAll st w) ws).eofBuf = st.eofBuf
    rw [ih]
    exact writeAllFuel_eofBuf _ _ _

theorem pollShutdown_output (compress : List Nat → List Nat) (st : AsyncWriterState) :
    (pollShutdown compress st).output =
      (sinkClose compress (pollFlush st)).output ++ st.eofBuf := by
  simp [pollShutdown, sinkClose, pollFlush_eofBuf]

/-- C9: after any sequence of writes, one shutdown flushes the
remaining buffered payload into the sink, closes the sink (emitting
every pending payload as a compressed block, in order) and appends the
28-byte EOF marker, so the output ends with the marker; a second
shutdown leaves the output unchanged.  Quantified over the abstract
deflate transform. -/
theorem shutdown_appends_eof_once (compress : List Nat → List Nat)
    (writes : List (List Nat)) :
    (pollShutdown compress (processWrites initWriter writes)).output =
      (sinkClose compress (pollFlush (processWrites initWriter writes))).output
        ++ bgzfEof ∧
    (pollShutdown compress (processWrites initWriter writes)).output.drop
      ((pollShutdown compress (processWrites initWriter writes)).output.length - 28) =
        bgzfEof ∧
    (pollShutdown compress (pollShutdown compress (processWrites initWriter writes))).output =
      (pollShutdown compress (processWrites initWriter writes)).output := by
  have heof : (processWrites initWriter writes).eofBuf = bgzfEof :=
    processWrites_eofBuf writes initWriter
  have hout : (pollShutdown compress (processWrites initWriter writes)).output =
      (sinkClose compress (pollFlush (processWrites initWriter writes))).output
        ++ bgzfEof := by
    rw [pollShutdown_output, heof]
  refine ⟨hout, ?_, ?_⟩
  · rw [hout]
    have h28 : bgzfEof.length = 28 := by decide
    rw [List.length_append, h28, Nat.add_sub_cancel, List.drop_left]
  · have hbuf : (pollShutdown compress (processWrites initWriter writes)).buf = [] := by
      simp [pollShutdown, sinkClose, pollFlush_buf]
    have hpend : (pollShutdown compress (processWrites initWriter writes)).pending = [] := by
      simp [pollShutdown, sinkClose]
    have heof2 : (pollShutdown compress (processWrites initWriter writes)).eofBuf = [] := by
      simp [pollShutdown]
    rw [pollShutdown_output, heof2, List.append_nil]
    unfold pollFlush
    rw [if_pos (by rw [hbuf]; rfl)]
    simp [sinkClose, hpend]

end Noodles
